import Mathlib

/-
  Verification of kabuki/hierarchical.py (hierarchical Bayesian model assembly).

  Shallow embedding conventions:
  * numpy recarray rows are association lists from column names to integer values
    (the dependency columns carry discrete condition codes, so Int suffices);
  * python dicts (OrderedDict included) are association lists with first-key-wins
    lookup and in-place update;
  * backend nodes (pymc distributions) are opaque records carrying the two pieces
    of state this module reads and writes: a value and an observed flag;
  * the transient scratch fields of Parameter (tag / idx / data) that the source
    writes immediately before each backend call and resets right after are passed
    to the backend as explicit arguments instead of object state;
  * a dict access that would raise KeyError in python is modelled with a default
    value; every theorem below is stated on states where the access succeeds.
-/

/-- A backend node as seen by hierarchical.py: a settable value and an
observed flag (spec section 6). Values are modelled as rationals. -/
structure PNode where
  value : ℚ
  observed : Bool
deriving DecidableEq

/-- A value stored in a params dictionary or in Parameter.subj_nodes: either a
single (possibly None) node, or a numpy object array of per-subject nodes whose
entries may still be None placeholders. -/
inductive Binding where
  | single : Option PNode → Binding
  | arr : List (Option PNode) → Binding
deriving DecidableEq

/-- Python dict lookup on an association list (first binding wins). -/
def alookup {α : Type} : List (String × α) → String → Option α
  | [], _ => none
  | (k, v) :: rest, key => if k = key then some v else alookup rest key

/-- Python dict assignment d[key] = v: replace in place if present, else append
(insertion order preserved, as for OrderedDict). -/
def aupdate {α : Type} : List (String × α) → String → α → List (String × α)
  | [], key, v => [(key, v)]
  | (k, w) :: rest, key, v =>
      if k = key then (key, v) :: rest else (k, w) :: aupdate rest key v

/-- Python dict.has_key. -/
def hasKey {α : Type} (l : List (String × α)) (k : String) : Bool :=
  (alookup l k).isSome

/-- One row of the input recarray: named integer-valued fields. -/
abbrev DataRow := List (String × Int)

/-- data[col] for a single row. -/
def rowVal (r : DataRow) (c : String) : Option Int := alookup r c

/-- data[col_list] for a single row: a record of the values of several columns
(an absent column is modelled as a none component). -/
def projRow (cols : List String) (r : DataRow) : List (Option Int) :=
  cols.map (alookup r)

/- ----------------------------------------------------------------------
   Association list basics shared by several embeddings below.
   ---------------------------------------------------------------------- -/

theorem alookup_aupdate_self {α : Type} (l : List (String × α)) (k : String) (v : α) :
    alookup (aupdate l k v) k = some v := by
  induction l with
  | nil => simp [aupdate, alookup]
  | cons p rest ih =>
      by_cases h : p.1 = k
      · simp [aupdate, h, alookup]
      · simp [aupdate, h, alookup, ih]

theorem alookup_aupdate_ne {α : Type} (l : List (String × α)) (k k2 : String) (v : α)
    (h : k ≠ k2) : alookup (aupdate l k v) k2 = alookup l k2 := by
  induction l with
  | nil => simp [aupdate, alookup, h]
  | cons p rest ih =>
      by_cases hp : p.1 = k
      · simp [aupdate, hp, alookup, h]
      · simp only [aupdate, hp, if_false, alookup]
        by_cases hp2 : p.1 = k2 <;> simp [hp2, ih]

theorem alookup_append_left {α : Type} (l s : List (String × α)) (k : String) (v : α)
    (h : alookup l k = some v) : alookup (l ++ s) k = some v := by
  induction l with
  | nil => simp [alookup] at h
  | cons p rest ih =>
      by_cases hp : p.1 = k
      · simpa [alookup, hp] using h
      · simp only [alookup, hp, if_false] at h ⊢
        exact ih h

theorem alookup_append_right {α : Type} (l s : List (String × α)) (k : String)
    (h : alookup l k = none) : alookup (l ++ s) k = alookup s k := by
  induction l with
  | nil => rfl
  | cons p rest ih =>
      by_cases hp : p.1 = k
      · simp [alookup, hp] at h
      · simp only [alookup, hp, if_false] at h ⊢
        exact ih h

theorem alookup_map_value {α β : Type} (l : List (String × α)) (f : α → β)
    (k : String) (v : α) (h : alookup l k = some v) :
    alookup (l.map (fun kv => (kv.1, f kv.2))) k = some (f v) := by
  induction l with
  | nil => simp [alookup] at h
  | cons p rest ih =>
      by_cases hp : p.1 = k
      · simp only [alookup, hp, if_true] at h
        injection h with h2
        subst h2
        simp [alookup, hp]
      · simp only [alookup, hp, if_false] at h
        simp [alookup, hp, ih h]

/- ----------------------------------------------------------------------
   C9 — Hierarchical.__init__ lines 167-175: injection of the synthetic
   data_idx column.
   ---------------------------------------------------------------------- -/

/-- The input recarray together with its dtype column names. -/
structure Dataset where
  cols : List String
  rows : List DataRow
deriving DecidableEq

/-- new_data construction: every original field is copied over and the new
data_idx field of row number i is set to i (np.arange(len(data))). -/
def addIdxRows : ℕ → List DataRow → List DataRow
  | _, [] => []
  | i, r :: rest => (r ++ [("data_idx", (i : Int))]) :: addIdxRows (i + 1) rest

/-- Hierarchical.__init__ lines 167-175: assert that no data_idx column exists
(AssertionError modelled as none, raised before anything else is built), then
build the augmented recarray. -/
def addDataIdx (d : Dataset) : Option Dataset :=
  if "data_idx" ∈ d.cols then none
  else some { cols := d.cols ++ ["data_idx"], rows := addIdxRows 0 d.rows }

theorem addIdxRows_length (rs : List DataRow) : ∀ i, (addIdxRows i rs).length = rs.length := by
  induction rs with
  | nil => intro i; rfl
  | cons r rest ih => intro i; simp [addIdxRows, ih]

theorem addIdxRows_getD (rs : List DataRow) :
    ∀ i t, t < rs.length →
      (addIdxRows i rs).getD t [] = (rs.getD t []) ++ [("data_idx", ((i + t : ℕ) : Int))] := by
  induction rs with
  | nil => intro i t ht; simp at ht
  | cons r rest ih =>
      intro i t ht
      cases t with
      | zero => simp [addIdxRows]
      | succ t2 =>
          have h2 : t2 < rest.length := by
            simp only [List.length_cons] at ht; omega
          simp only [addIdxRows, List.getD_cons_succ]
          rw [ih (i + 1) t2 h2]
          have h3 : i + 1 + t2 = i + (t2 + 1) := by omega
          rw [h3]

/-- Claim C9: for every input dataset without a data_idx column, the constructor
injects a synthetic data_idx column whose value in row i is exactly i (a strictly
increasing zero-based sequence aligned with the original row order, so re-running
the injection on the same input yields the same indices), the original fields of
every row are untouched, and a dataset that already has a data_idx column is
rejected before any node is built. -/
theorem addDataIdx_c9 (d : Dataset) :
    ("data_idx" ∈ d.cols → addDataIdx d = none) ∧
    ("data_idx" ∉ d.cols →
      ∃ d2, addDataIdx d = some d2 ∧
        d2.rows.length = d.rows.length ∧
        (∀ i, i < d.rows.length →
          (alookup (d.rows.getD i []) "data_idx" = none →
            alookup (d2.rows.getD i []) "data_idx" = some (i : Int)) ∧
          (∀ c v, alookup (d.rows.getD i []) c = some v →
            alookup (d2.rows.getD i []) c = some v))) := by
  constructor
  · intro h; simp [addDataIdx, h]
  · intro h
    refine ⟨{ cols := d.cols ++ ["data_idx"], rows := addIdxRows 0 d.rows }, ?_, ?_, ?_⟩
    · simp [addDataIdx, h]
    · exact addIdxRows_length d.rows 0
    intro i hi
    have hrow := addIdxRows_getD d.rows 0 i hi
    constructor
    · intro hnone
      rw [hrow, alookup_append_right _ _ _ hnone]
      simp [alookup]
    · intro c v hv
      rw [hrow]
      exact alookup_append_left _ _ _ _ hv

/-- Witness for C9 at a concrete two-row dataset. -/
theorem addDataIdx_c9_witness :
    ("data_idx" ∉ (Dataset.mk ["rt"] [[("rt", 3)], [("rt", 5)]]).cols) ∧
    (∃ d2, addDataIdx (Dataset.mk ["rt"] [[("rt", 3)], [("rt", 5)]]) = some d2 ∧
      d2.rows.length = 2 ∧
      (∀ i, i < 2 →
        (alookup (([[("rt", 3)], [("rt", 5)]] : List DataRow).getD i []) "data_idx" = none →
          alookup (d2.rows.getD i []) "data_idx" = some (i : Int)) ∧
        (∀ c v, alookup (([[("rt", 3)], [("rt", 5)]] : List DataRow).getD i []) c = some v →
          alookup (d2.rows.getD i []) c = some v))) := by
  refine ⟨by decide, ?_⟩
  exact (addDataIdx_c9 (Dataset.mk ["rt"] [[("rt", 3)], [("rt", 5)]])).2 (by decide)

/- ----------------------------------------------------------------------
   C10 — Hierarchical.__init__ lines 177-190: in-place normalization of
   depends_on values.  Python object identity is modelled with a tiny heap:
   the caller's dict is a cell of the heap and the constructor updates that
   cell, so whatever the caller's reference sees afterwards is exactly what
   the constructor left in the cell.
   ---------------------------------------------------------------------- -/

/-- A depends_on value supplied by the caller: a plain column name or a list of
column names. -/
inductive DepVal where
  | str : String → DepVal
  | list : List String → DepVal
deriving DecidableEq

abbrev DepDict := List (String × DepVal)

abbrev DepHeap := List DepDict

/-- The body of the normalization loop: a plain string column name is replaced
by a one-element list; list values are left alone. -/
def normalizeDepVal : DepVal → DepVal
  | .str s => .list [s]
  | .list l => .list l

/-- Hierarchical.__init__ lines 177-190.  ref is the caller's depends_on dict.
An empty (falsy) dict makes the constructor allocate a fresh empty dict of its
own; otherwise the caller's dict is normalized in place (the heap cell at ref is
overwritten) and only afterwards are the referenced column names checked against
the dataset schema (KeyError if one is missing — the in-place mutation has
already happened by then).  The ok payload is the reference the constructor
stores as self.depends_on. -/
def initDependsOn (h : DepHeap) (ref : ℕ) (cols : List String) :
    DepHeap × Except String ℕ :=
  let d := h.getD ref []
  if d.isEmpty then
    (h ++ [[]], Except.ok h.length)
  else
    let d2 := d.map (fun kv => (kv.1, normalizeDepVal kv.2))
    let h2 := h.set ref d2
    (h2,
      if d2.all (fun kv =>
          match kv.2 with
          | .list l => l.all (fun c => cols.contains c)
          | .str _ => true) then
        Except.ok ref
      else
        Except.error "KeyError: column not found in data")

/-- Claim C10: when the caller's depends_on dict maps some parameter to a plain
string, construction overwrites the caller's own dict cell, replacing that string
with the one-element list containing it — the mutation is visible through the
caller's reference whether or not construction then succeeds. -/
theorem initDependsOn_c10 (h : DepHeap) (ref : ℕ) (cols : List String)
    (key s : String) (href : ref < h.length)
    (hkey : alookup (h.getD ref []) key = some (DepVal.str s)) :
    alookup (((initDependsOn h ref cols).1).getD ref []) key = some (DepVal.list [s]) := by
  have hne : ¬ ((h.getD ref []).isEmpty = true) := by
    cases hd : h.getD ref [] with
    | nil => rw [hd] at hkey; simp [alookup] at hkey
    | cons p rest => simp
  have hmap := alookup_map_value (h.getD ref []) normalizeDepVal key _ hkey
  have hget : ∀ (d2 : DepDict), (h.set ref d2).getD ref [] = d2 := by
    intro d2
    have hg : (h.set ref d2)[ref]? = some d2 := List.getElem?_set_self href
    simp [List.getD, hg]
  simp only [initDependsOn, if_neg hne]
  rw [hget]
  exact hmap

/-- Witness for C10: a caller heap holding one dict mapping "v" to the plain
string "stim"; after construction the caller's cell maps "v" to ["stim"]. -/
theorem initDependsOn_c10_witness :
    (0 < ([[("v", DepVal.str "stim")]] : DepHeap).length) ∧
    alookup (((initDependsOn [[("v", DepVal.str "stim")]] 0 ["stim"]).1).getD 0 []) "v"
      = some (DepVal.list ["stim"]) := by
  refine ⟨by decide, ?_⟩
  exact initDependsOn_c10 [[("v", DepVal.str "stim")]] 0 ["stim"] "v" "stim"
    (by decide) (by decide)

/- ----------------------------------------------------------------------
   C4 — create_nodes lines 319-329: the bounded retry loop around _create.
   The attempt function abstracts one full _create() pass (the backend may
   refuse with pm.ZeroProbability or a ValueError, both caught and retried;
   anything else propagates).  tries counts retries; budget = retry - tries,
   so the loop retries while tries < retry and on the next failure re-raises
   it as pm.ZeroProbability carrying the caught exception.
   ---------------------------------------------------------------------- -/

/-- Outcome of one _create() pass inside create_nodes. -/
inductive CreateOutcome where
  | ok
  | zeroProb : String → CreateOutcome
  | valueErr : String → CreateOutcome
  | otherExc : String → CreateOutcome
deriving DecidableEq

/-- The exception classes create_nodes catches: pm.ZeroProbability and ValueError. -/
def retryable : CreateOutcome → Bool
  | .zeroProb _ => true
  | .valueErr _ => true
  | _ => false

/-- The message carried by a failing outcome. -/
def outcomeMsg : CreateOutcome → String
  | .ok => ""
  | .zeroProb m => m
  | .valueErr m => m
  | .otherExc m => m

/-- What create_nodes lets escape to its caller. -/
inductive CreateError where
  | zeroProbRaised : String → CreateError
  | uncaught : String → CreateError
deriving DecidableEq

/-- The while loop of create_nodes.  budget is retry - tries; attempt idx is
the (idx+1)-th execution of _create().  With budget exhausted a caught failure
is re-raised as pm.ZeroProbability wrapping the caught exception; an uncaught
exception always propagates at once. -/
def createNodesGo (attempt : ℕ → CreateOutcome) : ℕ → ℕ → Except CreateError ℕ
  | idx, 0 =>
      match attempt idx with
      | .ok => Except.ok idx
      | .zeroProb m => Except.error (CreateError.zeroProbRaised m)
      | .valueErr m => Except.error (CreateError.zeroProbRaised m)
      | .otherExc m => Except.error (CreateError.uncaught m)
  | idx, budget + 1 =>
      match attempt idx with
      | .ok => Except.ok idx
      | .zeroProb _ => createNodesGo attempt (idx + 1) budget
      | .valueErr _ => createNodesGo attempt (idx + 1) budget
      | .otherExc m => Except.error (CreateError.uncaught m)

/-- create_nodes' retry wrapper (the default of the retry argument is 20). -/
def createNodes (attempt : ℕ → CreateOutcome) (retry : ℕ) : Except CreateError ℕ :=
  createNodesGo attempt 0 retry

/-- Default of the retry parameter in the source. -/
def createNodesRetryDefault : ℕ := 20

theorem createNodesGo_all_fail (attempt : ℕ → CreateOutcome) :
    ∀ budget idx, (∀ k, idx ≤ k → k ≤ idx + budget → retryable (attempt k) = true) →
      createNodesGo attempt idx budget
        = Except.error (CreateError.zeroProbRaised (outcomeMsg (attempt (idx + budget)))) := by
  intro budget
  induction budget with
  | zero =>
      intro idx h
      have h0 := h idx (le_refl idx) (by omega)
      cases ha : attempt idx <;> rw [ha] at h0 <;> simp [retryable] at h0 <;>
        simp [createNodesGo, ha, outcomeMsg]
  | succ b ih =>
      intro idx h
      have h0 := h idx (le_refl idx) (by omega)
      have hrec := ih (idx + 1) (fun k hk1 hk2 => h k (by omega) (by omega))
      have harith : idx + 1 + b = idx + (b + 1) := by omega
      rw [harith] at hrec
      cases ha : attempt idx <;> rw [ha] at h0 <;> simp [retryable] at h0 <;>
        simp [createNodesGo, ha, hrec]

theorem createNodesGo_ok (attempt : ℕ → CreateOutcome) :
    ∀ budget idx k, idx ≤ k → k ≤ idx + budget →
      (∀ j, idx ≤ j → j < k → retryable (attempt j) = true) →
      attempt k = CreateOutcome.ok →
      createNodesGo attempt idx budget = Except.ok k := by
  intro budget
  induction budget with
  | zero =>
      intro idx k h1 h2 _ hk
      have : idx = k := by omega
      subst this
      simp [createNodesGo, hk]
  | succ b ih =>
      intro idx k h1 h2 hfail hk
      by_cases hik : idx = k
      · subst hik
        simp [createNodesGo, hk]
      · have hlt : idx < k := by omega
        have h0 := hfail idx (le_refl idx) hlt
        have hrec := ih (idx + 1) k (by omega) (by omega)
          (fun j hj1 hj2 => hfail j (by omega) hj2) hk
        cases ha : attempt idx <;> rw [ha] at h0 <;> simp [retryable] at h0 <;>
          simp [createNodesGo, ha, hrec]

theorem createNodesGo_other (attempt : ℕ → CreateOutcome) :
    ∀ budget idx k m, idx ≤ k → k ≤ idx + budget →
      (∀ j, idx ≤ j → j < k → retryable (attempt j) = true) →
      attempt k = CreateOutcome.otherExc m →
      createNodesGo attempt idx budget = Except.error (CreateError.uncaught m) := by
  intro budget
  induction budget with
  | zero =>
      intro idx k m h1 h2 _ hk
      have : idx = k := by omega
      subst this
      simp [createNodesGo, hk]
  | succ b ih =>
      intro idx k m h1 h2 hfail hk
      by_cases hik : idx = k
      · subst hik
        simp [createNodesGo, hk]
      · have hlt : idx < k := by omega
        have h0 := hfail idx (le_refl idx) hlt
        have hrec := ih (idx + 1) k m (by omega) (by omega)
          (fun j hj1 hj2 => hfail j (by omega) hj2) hk
        cases ha : attempt idx <;> rw [ha] at h0 <;> simp [retryable] at h0 <;>
          simp [createNodesGo, ha, hrec]

/-- Claim C4: create_nodes retries a pass that fails with pm.ZeroProbability
(invalid starting values) or ValueError up to `retry` times (default 20); when
the bound is exceeded the caught failure is re-raised to the caller as a
pm.ZeroProbability carrying the caught exception (the failure reason is
preserved); an exception of any other class is never retried and propagates
from the very pass that raised it. -/
theorem createNodes_c4 (attempt : ℕ → CreateOutcome) (retry : ℕ) :
    ((∀ k, k ≤ retry → retryable (attempt k) = true) →
      createNodes attempt retry
        = Except.error (CreateError.zeroProbRaised (outcomeMsg (attempt retry)))) ∧
    (∀ k, k ≤ retry → (∀ j, j < k → retryable (attempt j) = true) →
      attempt k = CreateOutcome.ok →
      createNodes attempt retry = Except.ok k) ∧
    (∀ k m, k ≤ retry → (∀ j, j < k → retryable (attempt j) = true) →
      attempt k = CreateOutcome.otherExc m →
      createNodes attempt retry = Except.error (CreateError.uncaught m)) ∧
    createNodesRetryDefault = 20 := by
  refine ⟨?_, ?_, ?_, rfl⟩
  · intro h
    have := createNodesGo_all_fail attempt retry 0 (fun k _ hk2 => h k (by omega))
    simpa [createNodes] using this
  · intro k hk hfail hok
    exact createNodesGo_ok attempt retry 0 k (by omega) (by omega)
      (fun j _ hj => hfail j hj) hok
  · intro k m hk hfail hexc
    exact createNodesGo_other attempt retry 0 k m (by omega) (by omega)
      (fun j _ hj => hfail j hj) hexc

/-- Witness for C4: a backend whose passes always fail with invalid starting
values exhausts a retry bound of 2 and the caller receives the re-raised
ZeroProbability with the original reason; with the same bound, a pass sequence
fail-then-succeed returns ok; a non-retryable exception on the first pass
propagates at once. -/
theorem createNodes_c4_witness :
    ((∀ k, k ≤ 2 → retryable ((fun _ => CreateOutcome.zeroProb "zp") k) = true) ∧
      createNodes (fun _ => CreateOutcome.zeroProb "zp") 2
        = Except.error (CreateError.zeroProbRaised "zp")) ∧
    ((1 : ℕ) ≤ 2 ∧ (∀ j, j < 1 → retryable ((fun i => if i = 0 then CreateOutcome.valueErr "ve" else CreateOutcome.ok) j) = true) ∧
      createNodes (fun i => if i = 0 then CreateOutcome.valueErr "ve" else CreateOutcome.ok) 2
        = Except.ok 1) ∧
    ((0 : ℕ) ≤ 2 ∧
      createNodes (fun _ => CreateOutcome.otherExc "KeyError") 2
        = Except.error (CreateError.uncaught "KeyError")) := by
  refine ⟨⟨fun k _ => rfl, ?_⟩, ⟨by decide, fun j hj => by interval_cases j <;> rfl, ?_⟩, ⟨by decide, ?_⟩⟩
  · exact (createNodes_c4 (fun _ => CreateOutcome.zeroProb "zp") 2).1 (fun k _ => rfl)
  · exact (createNodes_c4 (fun i => if i = 0 then CreateOutcome.valueErr "ve" else CreateOutcome.ok) 2).2.1
      1 (by decide) (fun j hj => by interval_cases j <;> rfl) (by decide)
  · exact (createNodes_c4 (fun _ => CreateOutcome.otherExc "KeyError") 2).2.2.1
      0 "KeyError" (by decide) (fun j hj => by omega) rfl

/- ----------------------------------------------------------------------
   C7 — map lines 379-395: the per-run retry loop of a single MAP run,
   exercised against the stub backend of the claim, which raises
   pm.ZeroProbability on its first N attempts and then succeeds.
   retries is incremented on each caught failure and the caught exception
   is re-raised as soon as retries >= max_retry.  Attempt indices double as
   the identity of the ZeroProbability instance raised at that attempt, so
   the error payload records which caught exception escapes.
   ---------------------------------------------------------------------- -/

/-- The while loop of one MAP run against the fails-N-times-then-succeeds
backend.  k is the attempt index (equal to the current value of retries, since
retries is incremented exactly once per failed attempt); fuel is an upper bound
on the remaining iterations, irrelevant as long as it exceeds N. -/
def mapRunGo (N max_retry : ℕ) : ℕ → ℕ → Except ℕ ℕ
  | _, 0 => Except.error 0
  | k, fuel + 1 =>
      if N ≤ k then Except.ok k
      else if max_retry ≤ k + 1 then Except.error k
      else mapRunGo N max_retry (k + 1) fuel

/-- One MAP run (lines 380-395) against a backend that fails with
pm.ZeroProbability exactly N times and then succeeds.  ok carries the index of
the successful attempt, error the index of the attempt whose ZeroProbability
was re-raised. -/
def mapSingleRun (N max_retry : ℕ) : Except ℕ ℕ :=
  mapRunGo N max_retry 0 (N + 1)

theorem mapRunGo_ok (N mr : ℕ) :
    ∀ fuel k, k ≤ N → N < k + fuel → (N = k ∨ N < mr) →
      mapRunGo N mr k fuel = Except.ok N := by
  intro fuel
  induction fuel with
  | zero => intro k h1 h2 _; omega
  | succ f ih =>
      intro k h1 h2 h3
      by_cases hk : N ≤ k
      · have : N = k := by omega
        subst this
        simp [mapRunGo]
      · have hlt : k < N := by omega
        have hmr : N < mr := by omega
        have hcond : ¬ (mr ≤ k + 1) := by omega
        simp only [mapRunGo, if_neg hk, if_neg hcond]
        exact ih (k + 1) (by omega) (by omega) (Or.inr hmr)

theorem mapRunGo_err (N mr : ℕ) :
    ∀ fuel d k, k + d = mr - 1 → mr - 1 < N → d < fuel →
      mapRunGo N mr k fuel = Except.error (mr - 1) := by
  intro fuel
  induction fuel with
  | zero => intro d k _ _ h3; omega
  | succ f ih =>
      intro d k h1 h2 h3
      cases d with
      | zero =>
          have hk : k = mr - 1 := by omega
          subst hk
          have hkN : ¬ (N ≤ mr - 1) := by omega
          have hcond : mr ≤ (mr - 1) + 1 := by omega
          simp [mapRunGo, if_neg hkN, hcond]
      | succ d2 =>
          have hkN : ¬ (N ≤ k) := by omega
          have hcond : ¬ (mr ≤ k + 1) := by omega
          simp only [mapRunGo, if_neg hkN, if_neg hcond]
          exact ih d2 (k + 1) (by omega) h2 (by omega)

/-- The claim C7 as stated is false at the degenerate retry bound 0: with a
backend that fails 0 times (succeeds immediately) and max_retry = 0, the run
succeeds even though 0 < 0 fails, because the success path never reaches the
retry check. -/
theorem mapSingleRun_c7_counterexample :
    mapSingleRun 0 0 = Except.ok 0 ∧ ¬ ((0 : ℕ) < 0) := by
  exact ⟨rfl, by omega⟩

/-- Claim C7 (amended): a single MAP run against a backend that fails with
pm.ZeroProbability exactly N times and then succeeds, succeeds iff N = 0 or
N < max_retry — in particular, for every positive retry bound, iff
N < max_retry, which is the claim as stated; otherwise the whole estimation
fails and what escapes is one of the original ZeroProbability exceptions
itself (the one caught at attempt max_retry - 1), not a new error. -/
theorem mapSingleRun_c7 (N mr : ℕ) :
    ((∃ k, mapSingleRun N mr = Except.ok k) ↔ (N = 0 ∨ N < mr)) ∧
    (1 ≤ mr → ((∃ k, mapSingleRun N mr = Except.ok k) ↔ N < mr)) ∧
    (¬ (N = 0 ∨ N < mr) → mapSingleRun N mr = Except.error (mr - 1)) := by
  have hok : (N = 0 ∨ N < mr) → mapSingleRun N mr = Except.ok N := by
    intro h
    exact mapRunGo_ok N mr (N + 1) 0 (by omega) (by omega)
      (by cases h with
        | inl h0 => exact Or.inl h0
        | inr hlt => exact Or.inr hlt)
  have herr : ¬ (N = 0 ∨ N < mr) → mapSingleRun N mr = Except.error (mr - 1) := by
    intro h
    push_neg at h
    exact mapRunGo_err N mr (N + 1) (mr - 1) 0 (by omega) (by omega) (by omega)
  refine ⟨⟨?_, fun h => ⟨N, hok h⟩⟩, ?_, herr⟩
  · intro ⟨k, hk⟩
    by_contra hcon
    rw [herr hcon] at hk
    exact Except.noConfusion hk
  · intro hmr
    constructor
    · intro ⟨k, hk⟩
      by_contra hcon
      have : ¬ (N = 0 ∨ N < mr) := by omega
      rw [herr this] at hk
      exact Except.noConfusion hk
    · intro h
      exact ⟨N, hok (Or.inr h)⟩

/-- Witness for C7 at N = 2, max_retry = 2 (failure: the ZeroProbability caught
at attempt 1 is re-raised) and at N = 1, max_retry = 2 (success). -/
theorem mapSingleRun_c7_witness :
    (¬ ((2 : ℕ) = 0 ∨ (2 : ℕ) < 2) ∧ mapSingleRun 2 2 = Except.error 1) ∧
    ((1 : ℕ) ≤ 2 ∧ ((∃ k, mapSingleRun 1 2 = Except.ok k) ↔ (1 : ℕ) < 2)) := by
  refine ⟨⟨by omega, ?_⟩, ⟨by omega, ?_⟩⟩
  · exact (mapSingleRun_c7 2 2).2.2 (by omega)
  · exact (mapSingleRun_c7 1 2).2.1 (by omega)

/- ----------------------------------------------------------------------
   C8 — stats lines 707-729: the statistics cache.  self._stats and
   self._stats_chain start out unset (AttributeError on access, modelled as
   none).  The computation backend is abstracted as a function from chain
   index to a statistics object; the third component of the result counts
   how many times the backend was invoked by the call (0 or 1), making
   "recomputation" observable.
   ---------------------------------------------------------------------- -/

/-- The two cache attributes of the model object. -/
structure StatsState where
  stats : Option ℕ
  statsChain : Option Int
deriving DecidableEq

/-- stats lines 716-729 for a resolved chain argument i_chain.  Returns the
value python returns (none = python's implicit None), the new object state, and
the number of backend stat computations performed. -/
def statsCall (compute : Int → ℕ) (st : StatsState) (iChain : Int) :
    Option ℕ × StatsState × ℕ :=
  match st.statsChain with
  | some c =>
      if c = iChain then (st.stats, st, 0)
      else (none, st, 0)
  | none =>
      let s := compute iChain
      (some s, { stats := some s, statsChain := some iChain }, 1)

/-- Claim C8 is half right and exposes a code bug.  After computing statistics
for chain 1, a repeated request for chain 1 returns the identical cached object
with no recomputation — but a request for chain 2 does NOT recompute: the
comparison self._stats_chain == i_chain is false, no AttributeError fires, and
the function falls off its end, returning None and leaving the stale chain-1
cache in place, contradicting the claim (and the documented intent of the
cache-key bookkeeping). -/
theorem statsCall_c8_bug :
    (statsCall (fun c => c.toNat + 100) ⟨none, none⟩ 1
      = (some 101, ⟨some 101, some 1⟩, 1)) ∧
    (statsCall (fun c => c.toNat + 100) ⟨some 101, some 1⟩ 1
      = (some 101, ⟨some 101, some 1⟩, 0)) ∧
    (statsCall (fun c => c.toNat + 100) ⟨some 101, some 1⟩ 2
      = (none, ⟨some 101, some 1⟩, 0)) := by
  exact ⟨rfl, rfl, rfl⟩

/- ----------------------------------------------------------------------
   C5 — map lines 397-406: selection of the best run and the divergence
   warning.  A completed MAP attempt is abstracted to its identity and its
   achieved log-posterior.  sorted(maps, key=attrgetter('logp')) is an
   ascending stable sort; sorted_maps[-1] is the selected run and
   sorted_maps[-2] the runner-up compared against the warning threshold.
   ---------------------------------------------------------------------- -/

/-- One completed MAP attempt: its position in the run sequence and the
log-posterior the optimizer reached. -/
structure MapRun where
  runId : ℕ
  logp : ℚ
deriving DecidableEq

/-- The sort key comparison used by sorted(maps, key=attrgetter('logp')). -/
def leLogp (a b : MapRun) : Prop := a.logp ≤ b.logp

instance : DecidableRel leLogp := fun a b => inferInstanceAs (Decidable (a.logp ≤ b.logp))

instance : IsTotal MapRun leLogp := ⟨fun a b => le_total a.logp b.logp⟩

instance : IsTrans MapRun leLogp := ⟨fun _ _ _ h1 h2 => le_trans h1 h2⟩

/-- map lines 397-406 for a list of completed attempts: pick sorted_maps[-1];
when runs >= 2 (all attempts succeeded, so runs = len(maps)), set the warning
flag iff the two best log-posteriors are more than warn_crit apart.  none is
returned only for an empty attempt list (python would raise on sorted_maps[-1]).
The warning is a print: non-fatal, so it is returned alongside the result. -/
def mapEstimate (maps : List MapRun) (warnCrit : ℚ) : Option (MapRun × Bool) :=
  let sortedMaps := List.insertionSort leLogp maps
  match sortedMaps.getLast? with
  | none => none
  | some maxMap =>
      let warn :=
        if 2 ≤ maps.length then
          decide (|maxMap.logp - ((sortedMaps.dropLast.getLast?).getD maxMap).logp| > warnCrit)
        else false
      some (maxMap, warn)

theorem sorted_le_getLast {l : List MapRun} (hs : List.Sorted leLogp l)
    (hne : l ≠ []) : ∀ x ∈ l, x.logp ≤ (l.getLast hne).logp := by
  induction l with
  | nil => intro x hx; simp at hx
  | cons a t ih =>
      intro x hx
      by_cases hte : t = []
      · subst hte
        simp only [List.mem_singleton] at hx
        subst hx
        simp [List.getLast]
      · rw [List.getLast_cons hte]
        rw [List.sorted_cons] at hs
        rcases List.mem_cons.mp hx with hxa | hxt
        · subst hxa
          exact hs.1 _ (List.getLast_mem hte)
        · exact ih hs.2 hte x hxt

/-- Claim C5: with all R runs completed, map selects the attempt with the
highest achieved log-posterior (for stub log-posteriors [10, 7, 12] the run
with 12); when at least two runs completed, the non-fatal warning flag is set
iff the top two log-posteriors differ by more than warn_crit (rest lists the
remaining attempts, m2 the runner-up: the best of rest). -/
theorem mapEstimate_c5 (maps : List MapRun) (crit : ℚ) (m : MapRun) (w : Bool)
    (h : mapEstimate maps crit = some (m, w)) :
    (m ∈ maps ∧ ∀ x ∈ maps, x.logp ≤ m.logp) ∧
    (2 ≤ maps.length →
      ∃ rest m2, List.Perm maps (rest ++ [m]) ∧ m2 ∈ rest ∧
        (∀ x ∈ rest, x.logp ≤ m2.logp) ∧
        (w = true ↔ |m.logp - m2.logp| > crit)) ∧
    (maps.length < 2 → w = false) ∧
    mapEstimate [⟨0, 10⟩, ⟨1, 7⟩, ⟨2, 12⟩] 5 = some (⟨2, 12⟩, false) := by
  have hperm : List.Perm (List.insertionSort leLogp maps) maps :=
    List.perm_insertionSort leLogp maps
  have hsorted : List.Sorted leLogp (List.insertionSort leLogp maps) :=
    List.sorted_insertionSort leLogp maps
  by_cases hnil : List.insertionSort leLogp maps = []
  · rw [mapEstimate, hnil] at h
    simp at h
  · have hlast : (List.insertionSort leLogp maps).getLast? =
        some ((List.insertionSort leLogp maps).getLast hnil) :=
      List.getLast?_eq_getLast _ hnil
    have hm : m = (List.insertionSort leLogp maps).getLast hnil := by
      rw [mapEstimate, hlast] at h
      simp only [Option.some.injEq, Prod.mk.injEq] at h
      exact h.1.symm
    have hmem : m ∈ maps := by
      rw [hm]
      exact hperm.mem_iff.mp (List.getLast_mem hnil)
    have hmax : ∀ x ∈ maps, x.logp ≤ m.logp := by
      intro x hx
      rw [hm]
      exact sorted_le_getLast hsorted hnil x (hperm.mem_iff.mpr hx)
    refine ⟨⟨hmem, hmax⟩, ?_, ?_, ?_⟩
    case neg.refine_3 =>
      simp only [mapEstimate, List.insertionSort, List.orderedInsert, leLogp]
      norm_num
    · intro h2
      have hlen : (List.insertionSort leLogp maps).length = maps.length :=
        hperm.length_eq
      have hdropne : (List.insertionSort leLogp maps).dropLast ≠ [] := by
        intro hcon
        have hc := congrArg List.length hcon
        rw [List.length_dropLast, hlen] at hc
        simp at hc
        omega
      have hsplit : (List.insertionSort leLogp maps).dropLast ++ [m]
          = List.insertionSort leLogp maps := by
        rw [hm]
        exact List.dropLast_append_getLast hnil
      have hrest_sorted : List.Sorted leLogp (List.insertionSort leLogp maps).dropLast :=
        hsorted.sublist (List.dropLast_sublist _)
      have hm2max := sorted_le_getLast hrest_sorted hdropne
      have hm2mem := List.getLast_mem hdropne
      have hlast2 : (List.insertionSort leLogp maps).dropLast.getLast?
          = some ((List.insertionSort leLogp maps).dropLast.getLast hdropne) :=
        List.getLast?_eq_getLast _ hdropne
      have hw : w = decide
          (|m.logp - ((List.insertionSort leLogp maps).dropLast.getLast hdropne).logp| > crit) := by
        rw [mapEstimate, hlast] at h
        simp only [Option.some.injEq, Prod.mk.injEq] at h
        rw [← h.2, if_pos h2, hlast2]
        simp [hm]
      refine ⟨(List.insertionSort leLogp maps).dropLast,
        (List.insertionSort leLogp maps).dropLast.getLast hdropne, ?_, hm2mem, hm2max, ?_⟩
      · exact List.Perm.trans hperm.symm (by rw [hsplit])
      · rw [hw]
        simp
    · intro hlt
      rw [mapEstimate, hlast] at h
      simp only [Option.some.injEq, Prod.mk.injEq] at h
      rw [← h.2, if_neg (by omega)]

/-- Witness for C5 at the claim's stub attempts with log-posteriors
[10, 7, 12] and warning threshold 5: the run with 12 is selected, the top two
(12 and 10) differ by 2 <= 5 and no warning fires. -/
theorem mapEstimate_c5_witness :
    mapEstimate [⟨0, 10⟩, ⟨1, 7⟩, ⟨2, 12⟩] 5 = some (⟨2, 12⟩, false) ∧
    ((⟨2, 12⟩ : MapRun) ∈ ([⟨0, 10⟩, ⟨1, 7⟩, ⟨2, 12⟩] : List MapRun) ∧
      ∀ x ∈ ([⟨0, 10⟩, ⟨1, 7⟩, ⟨2, 12⟩] : List MapRun), x.logp ≤ (12 : ℚ)) ∧
    (([⟨0, 10⟩, ⟨1, 7⟩, ⟨2, 12⟩] : List MapRun).length < 2 → False = true) := by
  have hconc : mapEstimate [⟨0, 10⟩, ⟨1, 7⟩, ⟨2, 12⟩] 5 = some (⟨2, 12⟩, false) := by
    simp only [mapEstimate, List.insertionSort, List.orderedInsert, leLogp]
    norm_num
  refine ⟨hconc, ?_, ?_⟩
  · exact (mapEstimate_c5 [⟨0, 10⟩, ⟨1, 7⟩, ⟨2, 12⟩] 5 ⟨2, 12⟩ false hconc).1
  · intro hcon
    simp at hcon

/- ----------------------------------------------------------------------
   C6 — map lines 408-411: copying the winning attempt's optimized values
   back onto the live node graph.  max_map._dict_container is the winning
   attempt's name -> node dict; self.nodes the live graph.  For every
   non-observed node of the winner, the live node of the same name gets the
   winner's value assigned in place (a missing name would raise KeyError in
   python; the in-place assignment is a keyed map over the live dict).
   ---------------------------------------------------------------------- -/

/-- node.value assignment. -/
def setValue (n : PNode) (v : ℚ) : PNode := { n with value := v }

/-- self.nodes[name].value = v: in-place update of the node stored under name. -/
def assignValue (nodes : List (String × PNode)) (name : String) (v : ℚ) :
    List (String × PNode) :=
  nodes.map (fun q => (q.1, if q.1 = name then setValue q.2 v else q.2))

/-- map lines 409-411: for name, node in max_map._dict_container.iteritems():
if not node.observed: self.nodes[name].value = node.value. -/
def mapSetValues (live : List (String × PNode)) (maxMap : List (String × PNode)) :
    List (String × PNode) :=
  maxMap.foldl (fun nodes q =>
    if q.2.observed then nodes else assignValue nodes q.1 q.2.value) live

theorem alookup_assignValue (nodes : List (String × PNode)) (name key : String) (v : ℚ) :
    alookup (assignValue nodes name v) key
      = (alookup nodes key).map (fun n => if key = name then setValue n v else n) := by
  induction nodes with
  | nil => rfl
  | cons p rest ih =>
      show (if p.1 = key then some (if p.1 = name then setValue p.2 v else p.2)
        else alookup (assignValue rest name v) key)
        = (if p.1 = key then some p.2 else alookup rest key).map
            (fun n => if key = name then setValue n v else n)
      by_cases hp : p.1 = key
      · rw [if_pos hp, if_pos hp, hp]
        rfl
      · rw [if_neg hp, if_neg hp, ih]

theorem alookup_assignValue_self (nodes : List (String × PNode)) (name : String) (v : ℚ) :
    alookup (assignValue nodes name v) name
      = (alookup nodes name).map (fun n => setValue n v) := by
  rw [alookup_assignValue]
  cases alookup nodes name with
  | none => rfl
  | some n => simp

theorem alookup_assignValue_ne (nodes : List (String × PNode)) (name key : String) (v : ℚ)
    (h : key ≠ name) :
    alookup (assignValue nodes name v) key = alookup nodes key := by
  rw [alookup_assignValue]
  cases alookup nodes key with
  | none => rfl
  | some n => simp [h]

theorem mapSetValues_cons (live : List (String × PNode)) (q : String × PNode)
    (rest : List (String × PNode)) :
    mapSetValues live (q :: rest)
      = mapSetValues (if q.2.observed then live else assignValue live q.1 q.2.value) rest := rfl

theorem mapSetValues_notin (maxMap : List (String × PNode)) :
    ∀ (live : List (String × PNode)) (key : String),
      key ∉ maxMap.map Prod.fst →
      alookup (mapSetValues live maxMap) key = alookup live key := by
  induction maxMap with
  | nil => intro live key _; rfl
  | cons q rest ih =>
      intro live key hk
      simp only [List.map_cons, List.mem_cons] at hk
      push_neg at hk
      rw [mapSetValues_cons]
      by_cases hobs : q.2.observed
      · rw [if_pos hobs]
        exact ih live key hk.2
      · rw [if_neg hobs]
        rw [ih (assignValue live q.1 q.2.value) key hk.2]
        exact alookup_assignValue_ne live q.1 key q.2.value hk.1

theorem mapSetValues_observed_skip (maxMap : List (String × PNode)) :
    ∀ (live : List (String × PNode)) (key : String),
      (∀ node, (key, node) ∈ maxMap → node.observed = true) →
      alookup (mapSetValues live maxMap) key = alookup live key := by
  induction maxMap with
  | nil => intro live key _; rfl
  | cons q rest ih =>
      intro live key hk
      rw [mapSetValues_cons]
      by_cases hobs : q.2.observed
      · rw [if_pos hobs]
        exact ih live key (fun node hn => hk node (List.mem_cons_of_mem _ hn))
      · rw [if_neg hobs]
        by_cases hq : q.1 = key
        · exfalso
          apply hobs
          have hmem : (key, q.2) ∈ q :: rest := by
            have : q = (key, q.2) := by
              cases q with
              | mk a b => simp at hq; rw [hq]
            rw [← this]
            exact List.mem_cons_self _ _
          rw [hk q.2 hmem]
        · rw [ih (assignValue live q.1 q.2.value) key
            (fun node hn => hk node (List.mem_cons_of_mem _ hn))]
          exact alookup_assignValue_ne live q.1 key q.2.value (fun hc => hq hc.symm)

/-- Claim C6: after selection, for every name in the winning attempt's dict
whose node is non-observed, the live node of that name receives the winner's
optimized value (its other state untouched); every live node whose winner
counterparts are all observed — in particular every observed/bottom node,
since live graph and winning attempt share one structure — keeps exactly its
previous state. -/
theorem mapSetValues_c6 (live maxMap : List (String × PNode)) (key : String)
    (hnd : (maxMap.map Prod.fst).Nodup) :
    (∀ node lv, (key, node) ∈ maxMap → node.observed = false →
      alookup live key = some lv →
      alookup (mapSetValues live maxMap) key = some (setValue lv node.value)) ∧
    ((∀ node, (key, node) ∈ maxMap → node.observed = true) →
      alookup (mapSetValues live maxMap) key = alookup live key) := by
  constructor
  · intro node lv hmem hobs hlv
    induction maxMap generalizing live with
    | nil => simp at hmem
    | cons q rest ih =>
        simp only [List.map_cons, List.nodup_cons] at hnd
        rw [mapSetValues_cons]
        rcases List.mem_cons.mp hmem with hq | hrest
        · have hq1 : q.1 = key := by rw [← hq]
          have hq2 : q.2 = node := by rw [← hq]
          rw [hq2, if_neg (by rw [hobs]; exact Bool.false_ne_true)]
          have hnotin : key ∉ rest.map Prod.fst := by
            rw [← hq1]
            exact hnd.1
          rw [mapSetValues_notin rest _ key hnotin, hq1,
            alookup_assignValue_self, hlv]
          rfl
        · by_cases hobsq : q.2.observed
          · rw [if_pos hobsq]
            exact ih live hnd.2 hrest hlv
          · rw [if_neg hobsq]
            have hq1 : q.1 ≠ key := by
              intro hc
              apply hnd.1
              rw [hc]
              exact List.mem_map.mpr ⟨(key, node), hrest, rfl⟩
            refine ih (assignValue live q.1 q.2.value) hnd.2 hrest ?_
            rw [alookup_assignValue_ne live q.1 key q.2.value (fun hc => hq1 hc.symm)]
            exact hlv
  · exact mapSetValues_observed_skip maxMap live key

/-- Witness for C6: live graph with a latent node "mu" (observed = false) and a
bottom node "obs" (observed = true); the winner carries value 9 for "mu".  After
the copy-back "mu" holds 9 and "obs" is untouched. -/
theorem mapSetValues_c6_witness :
    (((([("mu", PNode.mk 9 false), ("obs", PNode.mk 3 true)] : List (String × PNode)).map
        Prod.fst).Nodup) ∧
      alookup (mapSetValues [("mu", PNode.mk 1 false), ("obs", PNode.mk 3 true)]
        [("mu", PNode.mk 9 false), ("obs", PNode.mk 3 true)]) "mu"
        = some (setValue (PNode.mk 1 false) 9)) ∧
    alookup (mapSetValues [("mu", PNode.mk 1 false), ("obs", PNode.mk 3 true)]
        [("mu", PNode.mk 9 false), ("obs", PNode.mk 3 true)]) "obs"
      = alookup [("mu", PNode.mk 1 false), ("obs", PNode.mk 3 true)] "obs" := by
  have hnd : (([("mu", PNode.mk 9 false), ("obs", PNode.mk 3 true)] :
      List (String × PNode)).map Prod.fst).Nodup := by decide
  constructor
  · refine ⟨hnd, ?_⟩
    exact (mapSetValues_c6 [("mu", PNode.mk 1 false), ("obs", PNode.mk 3 true)]
      [("mu", PNode.mk 9 false), ("obs", PNode.mk 3 true)] "mu" hnd).1
      (PNode.mk 9 false) (PNode.mk 1 false) (by simp) rfl (by decide)
  · refine (mapSetValues_c6 [("mu", PNode.mk 1 false), ("obs", PNode.mk 3 true)]
      [("mu", PNode.mk 9 false), ("obs", PNode.mk 3 true)] "obs" hnd).2 ?_
    intro node hn
    rcases List.mem_cons.mp hn with h1 | h1
    · simp only [Prod.mk.injEq] at h1
      exact absurd h1.1 (by decide)
    · have h2 := List.mem_singleton.mp h1
      simp only [Prod.mk.injEq] at h2
      rw [h2.2]

/- ----------------------------------------------------------------------
   C1 — _get_data_depend_rec lines 241-284: the Dependency Partitioner.
   Parameter descriptors carry the three tag-keyed node mappings that the
   partitioner and the bottom-node binder read; the traversal scratch
   fields are handled per the convention at the top of the file.
   ---------------------------------------------------------------------- -/

/-- A Parameter descriptor (class Parameter) restricted to the state the
partitioner and the bottom-node binder read and write: the flags and the three
ordered tag-keyed node mappings.  group_nodes values are optional because
_set_dependent_param stores None when create_group_node is false; subj_nodes
values are Binding because the mapping holds per-subject arrays for non-bottom
parameters and either arrays or single nodes for bottom parameters. -/
structure Parameter where
  name : String
  create_group_node : Bool := true
  create_subj_nodes : Bool := true
  is_bottom_node : Bool := false
  group_nodes : List (String × Option PNode) := []
  var_nodes : List (String × Option PNode) := []
  subj_nodes : List (String × Binding) := []
deriving DecidableEq

/-- The Hierarchical model state read by the partitioner and binder: the
augmented dataset, the group-model flag, the subject list (np.unique of
subj_idx, in that fixed order), the ordered included-parameter mapping and the
dependency map (an OrderedDict: insertion-ordered pairs of parameter name and
column list). -/
structure Hierarchical where
  data : List DataRow
  is_group_model : Bool
  subjs : List Int
  params_include : List Parameter
  depends_on : List (String × List String)

/-- self.params_include[param_name] (KeyError modelled by a default descriptor;
the claims are stated on states where the name is present). -/
def findParam (m : Hierarchical) (pname : String) : Parameter :=
  (m.params_include.find? (fun p => p.name == pname)).getD { name := pname }

/-- Ascending comparison of projected dependency records, standing in for the
value order np.unique sorts by (none sorts first; the order itself is
irrelevant to every property proved below). -/
def optLt : Option Int → Option Int → Bool
  | none, none => false
  | none, some _ => true
  | some _, none => false
  | some a, some b => decide (a < b)

/-- Lexicographic comparison on projected records. -/
def lexLe : List (Option Int) → List (Option Int) → Bool
  | [], _ => true
  | _ :: _, [] => false
  | a :: as, b :: bs => if a = b then lexLe as bs else optLt a b

instance : DecidableRel (fun a b : List (Option Int) => lexLe a b = true) :=
  fun _ _ => inferInstance

/-- np.unique(data[col_name]): the distinct projected records, in ascending
order. -/
def uniqueVals (data : List DataRow) (cols : List String) : List (List (Option Int)) :=
  (List.insertionSort (fun a b => lexLe a b = true) (data.map (projRow cols))).dedup

/-- The binding _get_data_depend_rec installs for the popped dependent
parameter: its subj-node array tagged str(depend_element) if the model is a
group model and the parameter creates subject nodes, else its group node under
that tag (a missing tag would raise KeyError in python). -/
def dependBinding (m : Hierarchical) (param : Parameter) (tag : String) : Binding :=
  if m.is_group_model && param.create_subj_nodes then
    (alookup param.subj_nodes tag).getD (Binding.single none)
  else
    Binding.single ((alookup param.group_nodes tag).getD none)

/-- _get_data_depend_rec lines 241-284: pop the first depends_on entry, split
the data by the distinct values of its columns, install the popped parameter's
binding for each value, recurse on the rest of the map with the restricted
data, and concatenate the terminals; with an empty map emit the single
terminal (data, params, dep_name).  copy-on-recurse in the source becomes
value semantics here. -/
def getDataDependRec (m : Hierarchical) :
    List (String × List String) → List DataRow → List (String × Binding) →
    List (List (Option Int)) →
    List (List DataRow × List (String × Binding) × List (List (Option Int)))
  | [], data, params, depName => [(data, params, depName)]
  | (paramName, colName) :: rest, data, params, depName =>
      ((uniqueVals data colName).map (fun dependElement =>
        let dataDep := data.filter (fun r => decide (projRow colName r = dependElement))
        let param := findParam m paramName
        let params2 := aupdate params paramName
          (dependBinding m param (toString dependElement))
        getDataDependRec m rest dataDep params2 (depName ++ [dependElement]))).flatten

theorem getDataDependRec_cons_eq (m : Hierarchical) (paramName : String)
    (colName : List String) (rest : List (String × List String)) (data : List DataRow)
    (params : List (String × Binding)) (depName : List (List (Option Int))) :
    getDataDependRec m ((paramName, colName) :: rest) data params depName
      = ((uniqueVals data colName).map (fun dependElement =>
          getDataDependRec m rest
            (data.filter (fun r => decide (projRow colName r = dependElement)))
            (aupdate params paramName
              (dependBinding m (findParam m paramName) (toString dependElement)))
            (depName ++ [dependElement]))).flatten := by
  simp [getDataDependRec]

theorem mem_uniqueVals (data : List DataRow) (cols : List String) (r : DataRow)
    (hr : r ∈ data) : projRow cols r ∈ uniqueVals data cols := by
  unfold uniqueVals
  rw [List.mem_dedup]
  exact ((List.perm_insertionSort _ _).mem_iff).mpr (List.mem_map.mpr ⟨r, hr, rfl⟩)

theorem nodup_uniqueVals (data : List DataRow) (cols : List String) :
    (uniqueVals data cols).Nodup := List.nodup_dedup _

theorem flatten_perm_of_mem {α β : Type} (vs : List α) (f g : α → List β)
    (h : ∀ v ∈ vs, List.Perm (f v) (g v)) :
    List.Perm ((vs.map f).flatten) ((vs.map g).flatten) := by
  induction vs with
  | nil => exact List.Perm.refl _
  | cons v rest ih =>
      simp only [List.map_cons, List.flatten_cons]
      exact List.Perm.append (h v (by simp)) (ih (fun u hu => h u (by simp [hu])))

theorem flatten_map_comm {α β γ : Type} (vs : List α) (f : α → List β) (g : β → List γ) :
    (((vs.map f).flatten).map g).flatten
      = (vs.map (fun v => ((f v).map g).flatten)).flatten := by
  induction vs with
  | nil => rfl
  | cons v rest ih =>
      simp only [List.map_cons, List.flatten_cons, List.map_append,
        List.flatten_append, ih]

/-- One partitioning level: splitting a row list along the fibers of a
projection over a duplicate-free list of values that covers every row is a
permutation of the row list. -/
theorem filter_fiber_perm {β : Type} [DecidableEq β] (f : DataRow → β) :
    ∀ (vs : List β) (data : List DataRow), vs.Nodup →
      (∀ r ∈ data, f r ∈ vs) →
      List.Perm ((vs.map (fun v => data.filter (fun r => decide (f r = v)))).flatten) data := by
  intro vs
  induction vs with
  | nil =>
      intro data _ hmem
      cases data with
      | nil => exact List.Perm.refl _
      | cons r t => exact absurd (hmem r (by simp)) (by simp)
  | cons v rest ih =>
      intro data hnd hmem
      have hnd2 := List.nodup_cons.mp hnd
      simp only [List.map_cons, List.flatten_cons]
      have hcong : ∀ u ∈ rest,
          data.filter (fun r => decide (f r = u))
            = (data.filter (fun r => !decide (f r = v))).filter
                (fun r => decide (f r = u)) := by
        intro u hu
        rw [List.filter_filter]
        apply List.filter_congr
        intro r _
        by_cases hf : f r = u
        · have huv : ¬ (u = v) := by
            intro hc
            subst hc
            exact hnd2.1 hu
          have hfv : ¬ (f r = v) := by
            rw [hf]
            exact huv
          simp [hf, hfv, huv]
        · simp [hf]
      rw [List.map_congr_left hcong]
      have hmem2 : ∀ r ∈ data.filter (fun r => !decide (f r = v)), f r ∈ rest := by
        intro r hr
        rw [List.mem_filter] at hr
        rcases List.mem_cons.mp (hmem r hr.1) with h2 | h2
        · exfalso
          have := hr.2
          simp [h2] at this
        · exact h2
      have hih := ih (data.filter (fun r => !decide (f r = v))) hnd2.2 hmem2
      exact (List.Perm.append_left _ hih).trans (List.filter_append_perm _ data)

theorem getDataDependRec_perm (m : Hierarchical) :
    ∀ (deps : List (String × List String)) (data : List DataRow)
      (params : List (String × Binding)) (depName : List (List (Option Int))),
      List.Perm (((getDataDependRec m deps data params depName).map
        (fun t => t.1)).flatten) data := by
  intro deps
  induction deps with
  | nil =>
      intro data params depName
      simp [getDataDependRec]
  | cons pc rest ih =>
      intro data params depName
      obtain ⟨paramName, colName⟩ := pc
      rw [getDataDependRec_cons_eq, flatten_map_comm]
      refine List.Perm.trans
        (flatten_perm_of_mem (uniqueVals data colName) _
          (fun v => data.filter (fun r => decide (projRow colName r = v)))
          (fun v _ => ih _ _ _))
        (filter_fiber_perm (projRow colName) (uniqueVals data colName) data
          (nodup_uniqueVals data colName)
          (fun r hr => mem_uniqueVals data colName r hr))

/-- Claim C1: for every dataset, every dependency map (any nesting depth, so in
particular depths 0 to 3) and every incoming bindings and tag-path, the data
subsets of the terminals emitted by _get_data_depend_rec are, taken together, a
permutation of the input dataset (their union as a multiset — hence as a row
set — is the dataset), and as soon as the dataset's rows are pairwise distinct
(guaranteed by the injected unique data_idx column) the emitted subsets are
pairwise row-disjoint. -/
theorem getDataDependRec_c1 (m : Hierarchical) (deps : List (String × List String))
    (data : List DataRow) (params : List (String × Binding))
    (depName : List (List (Option Int))) :
    List.Perm (((getDataDependRec m deps data params depName).map
      (fun t => t.1)).flatten) data ∧
    (data.Nodup →
      ((getDataDependRec m deps data params depName).map
        (fun t => t.1)).Pairwise List.Disjoint) := by
  refine ⟨getDataDependRec_perm m deps data params depName, ?_⟩
  intro hnd
  have hflat : (((getDataDependRec m deps data params depName).map
      (fun t => t.1)).flatten).Nodup :=
    ((getDataDependRec_perm m deps data params depName).nodup_iff).mpr hnd
  exact (List.nodup_flatten.mp hflat).2

/-- Witness for C1: a three-row dataset carrying a unique data_idx and a
depth-2 dependency map over columns c1 and c2. -/
theorem getDataDependRec_c1_witness :
    (([[("c1", 0), ("c2", 0), ("data_idx", 0)],
       [("c1", 0), ("c2", 1), ("data_idx", 1)],
       [("c1", 1), ("c2", 0), ("data_idx", 2)]] : List DataRow).Nodup) ∧
    ((getDataDependRec
        (Hierarchical.mk
          [[("c1", 0), ("c2", 0), ("data_idx", 0)],
           [("c1", 0), ("c2", 1), ("data_idx", 1)],
           [("c1", 1), ("c2", 0), ("data_idx", 2)]]
          false [] [] [("v", ["c1"]), ("a", ["c2"])])
        [("v", ["c1"]), ("a", ["c2"])]
        [[("c1", 0), ("c2", 0), ("data_idx", 0)],
         [("c1", 0), ("c2", 1), ("data_idx", 1)],
         [("c1", 1), ("c2", 0), ("data_idx", 2)]]
        [] []).map (fun t => t.1)).Pairwise List.Disjoint := by
  refine ⟨by decide, ?_⟩
  exact (getDataDependRec_c1
    (Hierarchical.mk
      [[("c1", 0), ("c2", 0), ("data_idx", 0)],
       [("c1", 0), ("c2", 1), ("data_idx", 1)],
       [("c1", 1), ("c2", 0), ("data_idx", 2)]]
      false [] [] [("v", ["c1"]), ("a", ["c2"])])
    [("v", ["c1"]), ("a", ["c2"])]
    [[("c1", 0), ("c2", 0), ("data_idx", 0)],
     [("c1", 0), ("c2", 1), ("data_idx", 1)],
     [("c1", 1), ("c2", 0), ("data_idx", 2)]]
    [] []).2 (by decide)

/- ----------------------------------------------------------------------
   C2 / C3 — _create_bottom_node lines 588-651: the Bottom Node Binder.
   The subclass-provided get_bottom_node backend is a function argument
   taking the construction context (tag, subject index, data slice) and the
   resolved params dict.
   ---------------------------------------------------------------------- -/

/-- params[name][i] / subj_nodes[dep_name][i]: indexing a per-subject node
array by subject position (indexing a non-array value raises in python;
modelled as none). -/
def bindIndex : Binding → ℕ → Option PNode
  | Binding.arr ns, i => ns.getD i none
  | Binding.single _, _ => none

/-- The get_bottom_node capability supplied by the subclass: tag, subject
index (none outside group models), data slice, resolved params dict. -/
abbrev BottomBackend :=
  String → Option ℕ → List DataRow → List (String × Binding) → PNode

/-- Lines 617-630, body of the loop over params_include for one selected_param:
the binding stored into selected_subj_nodes.  Note the source tests
selected_param.subj_nodes.has_key(dep_name) in BOTH branches — also in the
branch that then reads group_nodes[dep_name]. -/
def selectBinding (p : Parameter) (params : List (String × Binding))
    (depColName : String) (i : ℕ) : Binding :=
  if p.create_subj_nodes = false then
    if hasKey p.subj_nodes depColName then
      Binding.single ((alookup p.group_nodes depColName).getD none)
    else
      (alookup params p.name).getD (Binding.single none)
  else
    if hasKey p.subj_nodes depColName then
      Binding.single (bindIndex
        ((alookup p.subj_nodes depColName).getD (Binding.single none)) i)
    else
      Binding.single (bindIndex
        ((alookup params p.name).getD (Binding.single none)) i)

/-- Lines 615-630: build selected_subj_nodes for subject position i by looping
over every included parameter. -/
def selectSubjNodes (paramsInclude : List Parameter)
    (params : List (String × Binding)) (depColName : String) (i : ℕ) :
    List (String × Binding) :=
  paramsInclude.foldl
    (fun selected p => aupdate selected p.name (selectBinding p params depColName i)) []

theorem selectSubjNodes_go_preserve (params : List (String × Binding))
    (depColName : String) (i : ℕ) :
    ∀ (rest : List Parameter) (acc : List (String × Binding)) (key : String),
      key ∉ rest.map Parameter.name →
      alookup (rest.foldl
        (fun selected p => aupdate selected p.name (selectBinding p params depColName i))
        acc) key = alookup acc key := by
  intro rest
  induction rest with
  | nil => intro acc key _; rfl
  | cons q rest2 ih =>
      intro acc key hk
      simp only [List.map_cons, List.mem_cons] at hk
      push_neg at hk
      simp only [List.foldl_cons]
      rw [ih _ key hk.2]
      exact alookup_aupdate_ne acc q.name key _ (fun hc => hk.1 hc.symm)

theorem alookup_selectSubjNodes (paramsInclude : List Parameter)
    (params : List (String × Binding)) (depColName : String) (i : ℕ) (p : Parameter)
    (hnd : (paramsInclude.map Parameter.name).Nodup) (hp : p ∈ paramsInclude) :
    alookup (selectSubjNodes paramsInclude params depColName i) p.name
      = some (selectBinding p params depColName i) := by
  have haux : ∀ (rest : List Parameter) (acc : List (String × Binding)),
      (rest.map Parameter.name).Nodup → p ∈ rest →
      alookup (rest.foldl
        (fun selected q => aupdate selected q.name (selectBinding q params depColName i))
        acc) p.name = some (selectBinding p params depColName i) := by
    intro rest
    induction rest with
    | nil => intro acc _ hmem; simp at hmem
    | cons q rest2 ih =>
        intro acc hnd2 hmem
        simp only [List.map_cons, List.nodup_cons] at hnd2
        simp only [List.foldl_cons]
        rcases List.mem_cons.mp hmem with hq | hq
        · subst hq
          rw [selectSubjNodes_go_preserve params depColName i rest2 _ p.name hnd2.1]
          exact alookup_aupdate_self acc p.name _
        · exact ih _ hnd2.2 hq
  exact haux paramsInclude [] hnd hp


/-- Concrete descriptor for the C2 counterexample: no subject nodes, a group
node stored under tag "t", empty subj_nodes (as for every non-bottom parameter
with create_subj_nodes = False). -/
def paramPc2 : Parameter :=
  { name := "P", create_subj_nodes := false,
    group_nodes := [("t", some (PNode.mk 0 false))] }

/-- The claim C2 as stated is false on the code: paramPc2's group_nodes DOES
hold a node under the current tag "t", yet the selected binding is the
carried-in one, because the source keys the choice on
subj_nodes.has_key(dep_name) (and paramPc2.subj_nodes is empty — as it always
is for a non-bottom parameter that creates no subject nodes). -/
theorem selectSubjNodes_c2_counterexample :
    alookup (selectSubjNodes [paramPc2]
        [("P", Binding.single (some (PNode.mk 1 false)))] "t" 0) "P"
      = some (Binding.single (some (PNode.mk 1 false))) ∧
    alookup paramPc2.group_nodes "t" = some (some (PNode.mk 0 false)) ∧
    Binding.single (some (PNode.mk 1 false)) ≠ Binding.single (some (PNode.mk 0 false)) := by
  refine ⟨by decide, by decide, by decide⟩

/-- Claim C2 (amended): during bottom-node construction in a group model, for
every included parameter (the non-bottom ones in particular): if it does not
create subject nodes, the binding used is its group-tier node under the current
tag whenever its SUBJ_NODES mapping contains the current tag (not whenever a
group node exists under that tag), and otherwise the carried-in binding; if it
does create subject nodes, the binding is its subject-node array under the
current tag indexed by subject position whenever that array is present, and
otherwise the carried-in binding indexed by subject position. -/
theorem selectSubjNodes_c2 (paramsInclude : List Parameter)
    (params : List (String × Binding)) (depColName : String) (i : ℕ) (p : Parameter)
    (hnd : (paramsInclude.map Parameter.name).Nodup) (hp : p ∈ paramsInclude) :
    (p.create_subj_nodes = false →
      (hasKey p.subj_nodes depColName = true →
        alookup (selectSubjNodes paramsInclude params depColName i) p.name
          = some (Binding.single ((alookup p.group_nodes depColName).getD none))) ∧
      (hasKey p.subj_nodes depColName = false →
        alookup (selectSubjNodes paramsInclude params depColName i) p.name
          = some ((alookup params p.name).getD (Binding.single none)))) ∧
    (p.create_subj_nodes = true →
      (hasKey p.subj_nodes depColName = true →
        alookup (selectSubjNodes paramsInclude params depColName i) p.name
          = some (Binding.single (bindIndex
              ((alookup p.subj_nodes depColName).getD (Binding.single none)) i))) ∧
      (hasKey p.subj_nodes depColName = false →
        alookup (selectSubjNodes paramsInclude params depColName i) p.name
          = some (Binding.single (bindIndex
              ((alookup params p.name).getD (Binding.single none)) i)))) := by
  have hsel := alookup_selectSubjNodes paramsInclude params depColName i p hnd hp
  constructor
  · intro hcs
    constructor
    · intro hk
      rw [hsel]
      simp [selectBinding, hcs, hk]
    · intro hk
      rw [hsel]
      simp [selectBinding, hcs, hk]
  · intro hcs
    constructor
    · intro hk
      rw [hsel]
      simp [selectBinding, hcs, hk]
    · intro hk
      rw [hsel]
      simp [selectBinding, hcs, hk]

/-- Concrete descriptors for the C2 witness. -/
def paramAc2 : Parameter :=
  { name := "a", create_subj_nodes := true,
    subj_nodes := [("t", Binding.arr [some (PNode.mk 2 false), none])] }

def paramBc2 : Parameter :=
  { name := "b", create_subj_nodes := false }

/-- Witness for the amended C2 on a two-parameter state exercising the
subject-node branch: the array under tag "t" is present, so subject position 0
receives its entry 0. -/
theorem selectSubjNodes_c2_witness :
    (([paramAc2, paramBc2].map Parameter.name).Nodup ∧
      paramAc2 ∈ [paramAc2, paramBc2] ∧
      paramAc2.create_subj_nodes = true ∧
      hasKey paramAc2.subj_nodes "t" = true) ∧
    alookup (selectSubjNodes [paramAc2, paramBc2]
        [("b", Binding.single (some (PNode.mk 3 false)))] "t" 0) "a"
      = some (Binding.single (bindIndex
          ((alookup paramAc2.subj_nodes "t").getD (Binding.single none)) 0)) := by
  refine ⟨⟨by decide, by decide, by decide, by decide⟩, ?_⟩
  exact ((selectSubjNodes_c2 [paramAc2, paramBc2]
    [("b", Binding.single (some (PNode.mk 3 false)))] "t" 0 paramAc2
    (by decide) (by decide)).2 (by decide)).1 (by decide)

/-- Lines 642-644 (non-group branch): before calling get_bottom_node, overwrite
params[name] with subj_nodes[dep_name] for every included parameter whose
subj_nodes holds the current tag (sibling bottom parameters after the init
pass). -/
def createBottomParamsNonGroup (m : Hierarchical)
    (params : List (String × Binding)) (depColName : String) :
    List (String × Binding) :=
  m.params_include.foldl (fun ps q =>
    if hasKey q.subj_nodes depColName then
      aupdate ps q.name ((alookup q.subj_nodes depColName).getD (Binding.single none))
    else ps) params

/-- Lines 608-637 (group branch): enumerate(self._subjs) starting at position
i; restrict the partition's data to the subject's rows; skip the subject when
no row remains, otherwise construct the bottom node over the subject slice with
the resolved bindings and store it at the subject's position of the array. -/
def createBottomLoop (m : Hierarchical) (fb : BottomBackend) (data : List DataRow)
    (params : List (String × Binding)) (depColName : String) :
    ℕ → List Int → List (Option PNode) → List (Option PNode)
  | _, [], arr => arr
  | i, subj :: rest, arr =>
      let dataSubj := data.filter (fun r => decide (rowVal r "subj_idx" = some subj))
      if dataSubj.length = 0 then
        createBottomLoop m fb data params depColName (i + 1) rest arr
      else
        createBottomLoop m fb data params depColName (i + 1) rest
          (arr.set i (some (fb depColName (some i) dataSubj
            (selectSubjNodes m.params_include params depColName i))))

/-- _create_bottom_node lines 588-651 for the bottom parameter param and one
partition (data, params, dep_name): group models fill the subject array stored
under the tag (put there by the init pass of _set_bottom_nodes), other models
store a single bottom node under the tag with no subject index. -/
def bottomInitArr (param : Parameter) (depColName : String) (n : ℕ) :
    List (Option PNode) :=
  match (alookup param.subj_nodes depColName).getD (Binding.single none) with
  | Binding.arr ns => ns
  | Binding.single _ => List.replicate n none

def createBottomNode (m : Hierarchical) (fb : BottomBackend) (param : Parameter)
    (data : List DataRow) (params : List (String × Binding)) (depColName : String) :
    Parameter :=
  if m.is_group_model then
    { param with
      subj_nodes := aupdate param.subj_nodes depColName
        (Binding.arr (createBottomLoop m fb data params depColName 0 m.subjs
          (bottomInitArr param depColName m.subjs.length))) }
  else
    { param with
      subj_nodes := aupdate param.subj_nodes depColName
        (Binding.single (some (fb depColName none data
          (createBottomParamsNonGroup m params depColName)))) }

theorem createBottomLoop_length (m : Hierarchical) (fb : BottomBackend)
    (data : List DataRow) (params : List (String × Binding)) (depColName : String) :
    ∀ (subjs : List Int) (i : ℕ) (arr : List (Option PNode)),
      (createBottomLoop m fb data params depColName i subjs arr).length = arr.length := by
  intro subjs
  induction subjs with
  | nil => intro i arr; rfl
  | cons s rest ih =>
      intro i arr
      simp only [createBottomLoop]
      by_cases hempty :
          (data.filter (fun r => decide (rowVal r "subj_idx" = some s))).length = 0
      · rw [if_pos hempty, ih]
      · rw [if_neg hempty, ih, List.length_set]

theorem createBottomLoop_get_lt (m : Hierarchical) (fb : BottomBackend)
    (data : List DataRow) (params : List (String × Binding)) (depColName : String) :
    ∀ (subjs : List Int) (i : ℕ) (arr : List (Option PNode)) (j : ℕ), j < i →
      (createBottomLoop m fb data params depColName i subjs arr)[j]? = arr[j]? := by
  intro subjs
  induction subjs with
  | nil => intro i arr j _; rfl
  | cons s rest ih =>
      intro i arr j hj
      simp only [createBottomLoop]
      by_cases hempty :
          (data.filter (fun r => decide (rowVal r "subj_idx" = some s))).length = 0
      · rw [if_pos hempty, ih (i + 1) arr j (by omega)]
      · rw [if_neg hempty, ih (i + 1) _ j (by omega)]
        exact List.getElem?_set_ne (by omega)

theorem createBottomLoop_get (m : Hierarchical) (fb : BottomBackend)
    (data : List DataRow) (params : List (String × Binding)) (depColName : String) :
    ∀ (subjs : List Int) (i : ℕ) (arr : List (Option PNode)) (t : ℕ),
      t < subjs.length → i + subjs.length ≤ arr.length →
      (createBottomLoop m fb data params depColName i subjs arr)[i + t]?
        = if (data.filter (fun r =>
              decide (rowVal r "subj_idx" = some (subjs.getD t 0)))).length = 0
          then arr[i + t]?
          else some (some (fb depColName (some (i + t))
            (data.filter (fun r =>
              decide (rowVal r "subj_idx" = some (subjs.getD t 0))))
            (selectSubjNodes m.params_include params depColName (i + t)))) := by
  intro subjs
  induction subjs with
  | nil => intro i arr t ht _; simp at ht
  | cons s rest ih =>
      intro i arr t ht hlen
      simp only [List.length_cons] at ht hlen
      cases t with
      | zero =>
          simp only [List.getD_cons_zero, Nat.add_zero]
          simp only [createBottomLoop]
          by_cases hempty :
              (data.filter (fun r => decide (rowVal r "subj_idx" = some s))).length = 0
          · rw [if_pos hempty, if_pos hempty]
            exact createBottomLoop_get_lt m fb data params depColName rest (i + 1) arr i
              (by omega)
          · rw [if_neg hempty, if_neg hempty]
            rw [createBottomLoop_get_lt m fb data params depColName rest (i + 1) _ i
              (by omega)]
            exact List.getElem?_set_self (by omega)
      | succ t2 =>
          have harith : i + (t2 + 1) = (i + 1) + t2 := by omega
          simp only [List.getD_cons_succ, harith]
          simp only [createBottomLoop]
          by_cases hempty :
              (data.filter (fun r => decide (rowVal r "subj_idx" = some s))).length = 0
          · rw [if_pos hempty]
            exact ih (i + 1) arr t2 (by omega) (by omega)
          · rw [if_neg hempty]
            rw [ih (i + 1) _ t2 (by omega) (by rw [List.length_set]; omega)]
            rw [List.getElem?_set_ne (by omega)]

/-- Claim C3: in a group model, given the placeholder array the init pass of
_set_bottom_nodes stored under the partition tag, bottom-node construction
leaves position t as the None placeholder exactly when subject t has no row in
the partition, and stores exactly one constructed bottom node (over the
subject's rows, at the subject's position, with the resolved bindings) for
every subject with at least one row, all under the bottom parameter's
subj_nodes entry for the partition tag; in a non-group model exactly one bottom
node over the whole partition is stored under the tag, with no subject index. -/
theorem createBottomNode_c3 (m : Hierarchical) (fb : BottomBackend) (param : Parameter)
    (data : List DataRow) (params : List (String × Binding)) (depColName : String) :
    (m.is_group_model = true →
      alookup param.subj_nodes depColName
        = some (Binding.arr (List.replicate m.subjs.length none)) →
      ∃ arr, alookup (createBottomNode m fb param data params depColName).subj_nodes
          depColName = some (Binding.arr arr) ∧
        arr.length = m.subjs.length ∧
        (∀ t, t < m.subjs.length →
          ((data.filter (fun r =>
              decide (rowVal r "subj_idx" = some (m.subjs.getD t 0)))).length = 0 →
            arr[t]? = some none) ∧
          (0 < (data.filter (fun r =>
              decide (rowVal r "subj_idx" = some (m.subjs.getD t 0)))).length →
            arr[t]? = some (some (fb depColName (some t)
              (data.filter (fun r =>
                decide (rowVal r "subj_idx" = some (m.subjs.getD t 0))))
              (selectSubjNodes m.params_include params depColName t)))))) ∧
    (m.is_group_model = false →
      alookup (createBottomNode m fb param data params depColName).subj_nodes depColName
        = some (Binding.single (some (fb depColName none data
            (createBottomParamsNonGroup m params depColName))))) := by
  constructor
  · intro hg hsubj
    refine ⟨createBottomLoop m fb data params depColName 0 m.subjs
      (List.replicate m.subjs.length none), ?_, ?_, ?_⟩
    · have harr0 : bottomInitArr param depColName m.subjs.length
          = List.replicate m.subjs.length none := by
        simp [bottomInitArr, hsubj]
      simp only [createBottomNode, hg, if_true]
      rw [harr0]
      exact alookup_aupdate_self param.subj_nodes depColName _
    · rw [createBottomLoop_length, List.length_replicate]
    · intro t ht
      have hget := createBottomLoop_get m fb data params depColName m.subjs 0
        (List.replicate m.subjs.length none) t ht
        (by rw [List.length_replicate]; omega)
      rw [Nat.zero_add] at hget
      constructor
      · intro hempty
        rw [hget, if_pos hempty]
        simp [List.getElem?_replicate, ht]
      · intro hpos
        rw [hget, if_neg (by omega)]
  · intro hg
    simp only [createBottomNode, hg, Bool.false_eq_true, if_false]
    exact alookup_aupdate_self param.subj_nodes depColName _

/-- Concrete bottom parameter for the C3 witness: the init pass has stored a
two-slot placeholder array under the tag "[]". -/
def paramWfpt : Parameter :=
  { name := "wfpt", is_bottom_node := true,
    subj_nodes := [("[]", Binding.arr [none, none])] }

/-- Concrete bottom parameter for the non-group half of the C3 witness. -/
def paramWfptFlat : Parameter :=
  { name := "wfpt", is_bottom_node := true }

/-- Concrete group model for the C3 witness: subjects [1, 2], one data row
belonging to subject 1. -/
def modelC3 : Hierarchical :=
  Hierarchical.mk [[("subj_idx", 1), ("data_idx", 0)]] true [1, 2] [] []

/-- Concrete non-group model for the C3 witness. -/
def modelC3Flat : Hierarchical := Hierarchical.mk [] false [] [] []

/-- Witness for C3: in modelC3 the partition holds a row for subject 1 only, so
position 0 receives a constructed node and position 1 keeps its None
placeholder; in modelC3Flat a single bottom node is stored with no subject
index. -/
theorem createBottomNode_c3_witness :
    (modelC3.is_group_model = true ∧
      alookup paramWfpt.subj_nodes "[]"
        = some (Binding.arr (List.replicate modelC3.subjs.length none)) ∧
      (∃ arr, alookup (createBottomNode modelC3 (fun _ _ _ _ => PNode.mk 0 true)
          paramWfpt [[("subj_idx", 1), ("data_idx", 0)]] [] "[]").subj_nodes "[]"
          = some (Binding.arr arr) ∧ arr.length = modelC3.subjs.length)) ∧
    (modelC3Flat.is_group_model = false ∧
      alookup (createBottomNode modelC3Flat (fun _ _ _ _ => PNode.mk 0 true)
          paramWfptFlat [] [] "[]").subj_nodes "[]"
        = some (Binding.single (some ((fun _ _ _ _ => PNode.mk 0 true) "[]"
            (none : Option ℕ) ([] : List DataRow)
            (createBottomParamsNonGroup modelC3Flat [] "[]"))))) := by
  constructor
  · refine ⟨rfl, by decide, ?_⟩
    obtain ⟨arr, harr, hlen, _⟩ := (createBottomNode_c3 modelC3
      (fun _ _ _ _ => PNode.mk 0 true) paramWfpt
      [[("subj_idx", 1), ("data_idx", 0)]] [] "[]").1 rfl (by decide)
    exact ⟨arr, harr, hlen⟩
  · refine ⟨rfl, ?_⟩
    exact (createBottomNode_c3 modelC3Flat (fun _ _ _ _ => PNode.mk 0 true)
      paramWfptFlat [] [] "[]").2 rfl
